import Mathlib

/-!
# Verification of the SQLdump-to-FHIR preprocessor

Shallow embedding of `src/preprocessor/preprocessor.py` (class `SQLPreprocessor`):
the chunked extraction pipeline (`extract_tables`), the batch cleaning transform
(`clean_dataframe`), and the JSON export with completion marker
(`export_preprocessed_data`).

Modelling notes, tied to the pandas semantics the code relies on:

* A cell value is modelled by `Value`; pandas missingness (`pd.isnull`) holds
  exactly for `NaN`, `NaT` and `None`/`NA`; infinities are NOT missing.
* `df.replace([pd.NA, pd.NaT, None], 0)` followed by
  `df.where(pd.notnull(df), 0)` jointly map every missing cell to zero:
  `0.0` in a `float64` column (the dtype is preserved there), the integer `0`
  elsewhere.  On a `datetime64` column that contains a `NaT`, replacing the
  `NaT` by the integer `0` forces the column dtype to `object`.
* `select_dtypes(include=['datetime64'])` is evaluated on the frame AFTER the
  replacement, so a datetime column that lost its dtype is skipped by the
  `strftime('%Y-%m-%d')` loop; a datetime column without missing values keeps
  its dtype and is reformatted to `YYYY-MM-DD` strings (an `object` column).
* `pd.read_sql_query(..., chunksize=n)` yields the table's rows, in order,
  partitioned into consecutive chunks of at most `n` rows.
* `DataFrame.to_dict(orient='records')` yields one mapping per row, keys in
  column order, values the column cells in row order.
-/

set_option autoImplicit false

namespace Preproc

/-- Runtime value of one cell, as pandas holds it.  `vFloat` carries the
numeric payload of a finite float as an integer scale (its exact arithmetic
is irrelevant here); `vTime` is a `pd.Timestamp` with year, month, day and a
seconds-within-day component; `vOther` is an object of some exotic runtime
type, identified by a tag. -/
inductive Value where
  | vInt : Int → Value
  | vFloat : Int → Value
  | vNaN : Value
  | vInf : Value
  | vNegInf : Value
  | vBool : Bool → Value
  | vStr : String → Value
  | vTime : Nat → Nat → Nat → Nat → Value
  | vNaT : Value
  | vNone : Value
  | vOther : String → Value
deriving DecidableEq

/-- Column dtype as pandas tracks it.  `other` stands for any exotic dtype
(`timedelta64`, `category`, ...) that the code does not recognise. -/
inductive Dtype where
  | int64 : Dtype
  | float64 : Dtype
  | boolean : Dtype
  | object : Dtype
  | datetime64 : Dtype
  | other : Dtype
deriving DecidableEq

/-- pandas missingness (`pd.isnull`): true exactly for `NaN`, `NaT` and
`None`/`pd.NA`.  Infinities are not missing. -/
def isMissing : Value → Bool
  | .vNaN => true
  | .vNaT => true
  | .vNone => true
  | _ => false

/-- The zero that `replace`/`where` writes into a missing cell: `0.0` when the
column dtype is `float64` (dtype preserved), the Python integer `0` otherwise. -/
def zeroFor (dt : Dtype) : Value :=
  if dt = .float64 then .vFloat 0 else .vInt 0

/-- Per-cell effect of `df.replace([pd.NA, pd.NaT, None], 0)` together with
`df.where(pd.notnull(df), 0)`. -/
def replaceVal (dt : Dtype) (v : Value) : Value :=
  if isMissing v then zeroFor dt else v

/-- Two-digit zero padding, as `strftime` produces for `%m` and `%d`. -/
def pad2 (n : Nat) : String :=
  if n < 10 then "0" ++ toString n else toString n

/-- Four-digit zero padding for `%Y` (pandas timestamps have 4-digit years). -/
def pad4 (n : Nat) : String :=
  if n < 10 then "000" ++ toString n
  else if n < 100 then "00" ++ toString n
  else if n < 1000 then "0" ++ toString n
  else toString n

/-- The `'%Y-%m-%d'` pattern of `Series.dt.strftime`. -/
def fmtDate (y m d : Nat) : String :=
  pad4 y ++ "-" ++ pad2 m ++ "-" ++ pad2 d

/-- `Series.dt.strftime('%Y-%m-%d')` on one cell: a timestamp becomes its
date string, the time-of-day component is discarded.  (On a `datetime64`
column only timestamps occur at this point.) -/
def strfV : Value → Value
  | .vTime y m d _ => .vStr (fmtDate y m d)
  | v => v

/-- One pandas column: name, dtype, and the cells in row order. -/
structure Col where
  name : String
  dtype : Dtype
  values : List Value
deriving DecidableEq

def dummyCol : Col := ⟨"", .object, []⟩

/-- Effect of `clean_dataframe` on one column.

Step 1 (`replace` + `where`) maps missing cells to `zeroFor dtype`; on a
`datetime64` column containing a missing value this forces the dtype to
`object`.  Step 2 (`select_dtypes(['datetime64'])` then `dt.strftime`) runs on
the frame produced by step 1, so it reformats exactly the datetime columns
that had no missing value; the reformatted column holds strings (`object`). -/
def cleanCol (c : Col) : Col :=
  let vs1 := c.values.map (replaceVal c.dtype)
  if c.dtype = .datetime64 then
    if c.values.any isMissing then
      ⟨c.name, .object, vs1⟩
    else
      ⟨c.name, .object, vs1.map strfV⟩
  else
    ⟨c.name, c.dtype, vs1⟩

/-- `SQLPreprocessor.clean_dataframe`: the per-column transform applied to
every column of the batch. -/
def clean_dataframe (df : List Col) : List Col :=
  df.map cleanCol

/-- One cleaned row as `to_dict(orient='records')` emits it: column name to
cell value, in column order. -/
abbrev Record := List (String × Value)

/-- Rows of a materialised frame (`to_dict(orient='records')`): for each row
index, the columns' cells at that index, keyed by column name. -/
def dfRecords (nrows : Nat) (cols : List Col) : List Record :=
  (List.range nrows).map fun i => cols.map fun c => (c.name, c.values.getD i .vNone)

/-- A source table: its column schema (names and dtypes, in order) and its
rows in natural storage order (each row lists the cells in schema order). -/
structure Table where
  schema : List (String × Dtype)
  rows : List (List Value)
deriving DecidableEq

/-- Materialise one chunk of rows as a pandas frame with the schema's columns:
column `j` holds each row's `j`-th cell. -/
def mkColsFrom (ch : List (List Value)) : Nat → List (String × Dtype) → List Col
  | _, [] => []
  | j, (nm, dt) :: s => ⟨nm, dt, ch.map fun r => r.getD j .vNone⟩ :: mkColsFrom ch (j + 1) s

def mkCols (schema : List (String × Dtype)) (ch : List (List Value)) : List Col :=
  mkColsFrom ch 0 schema

/-- Partition a list into consecutive chunks of exactly `n + 1` elements
(the last chunk may be shorter), as `read_sql_query(..., chunksize=n+1)`
yields the rows. -/
def toChunksFuel : Nat → Nat → List (List Value) → List (List (List Value))
  | 0, _, _ => []
  | _ + 1, _, [] => []
  | fuel + 1, n, x :: xs => ((x :: xs).take (n + 1)) :: toChunksFuel fuel n ((x :: xs).drop (n + 1))

/-- Chunking with size `n + 1`: the `fuel` argument of `toChunksFuel` only
drives the structural recursion; every step consumes at least one element, so
the list's length is always enough fuel. -/
def toChunksSucc (n : Nat) (xs : List (List Value)) : List (List (List Value)) :=
  toChunksFuel xs.length n xs

/-- Chunking with a positive batch size `sz` (a batch size of `0` behaves as
`1`; the code always uses `100000`). -/
def toChunks (sz : Nat) (xs : List (List Value)) : List (List (List Value)) :=
  toChunksSucc (sz - 1) xs

/-- The per-chunk body of the extraction loop: clean the chunk's frame and
turn it into records (`clean_dataframe` then `to_dict(orient='records')`). -/
def cleanChunkRecords (schema : List (String × Dtype)) (ch : List (List Value)) : List Record :=
  dfRecords ch.length (clean_dataframe (mkCols schema ch))

/-- The chunked read-and-clean loop of `extract_tables` for one table:
`processed_records.extend(clean_dataframe(chunk).to_dict('records'))` over the
chunks in read order, with batch size `sz`. -/
def extractTableRecords (sz : Nat) (tbl : Table) : List Record :=
  ((toChunks sz tbl.rows).map (cleanChunkRecords tbl.schema)).flatten

/-- The batch size hard-coded in `extract_tables`. -/
def chunk_size : Nat := 100000

/-! ## Row-wise reference form of the cleaning transform

`clean_dataframe` works column by column; the following definitions give the
equivalent row-at-a-time description (proved equivalent below).  The flag
`p j` says whether column `j` is "poisoned": a `datetime64` column that
contains a missing value somewhere in the SAME batch, and whose timestamps
therefore escape the `strftime` reformatting. -/

/-- One cell cleaned, given its column dtype and the column's poisoned flag. -/
def cleanCell (dt : Dtype) (poisoned : Bool) (v : Value) : Value :=
  if isMissing v then zeroFor dt
  else if dt = .datetime64 ∧ poisoned = false then strfV v
  else v

/-- Whether column `j` of batch `ch` contains a missing cell. -/
def colMissing (ch : List (List Value)) (j : Nat) : Bool :=
  ch.any fun r => isMissing (r.getD j .vNone)

/-- One row cleaned, column by column from index `j` on, with poisoned flags
supplied by `p`. -/
def cleanRowP (p : Nat → Bool) : Nat → List (String × Dtype) → List Value → Record
  | _, [], _ => []
  | j, (nm, dt) :: s, row =>
    (nm, cleanCell dt (p j) (row.getD j .vNone)) :: cleanRowP p (j + 1) s row

/-- One row of batch `ch` cleaned, with the poisoned flags the batch induces. -/
def cleanRowIn (schema : List (String × Dtype)) (ch : List (List Value)) (row : List Value) : Record :=
  cleanRowP (colMissing ch) 0 schema row

/-- One row cleaned in a batch where no datetime column has a missing value. -/
def cleanRowPure (schema : List (String × Dtype)) (row : List Value) : Record :=
  cleanRowP (fun _ => false) 0 schema row

/-! ## Positional access helpers -/

/-- Cell `j` of input row `i` of a batch. -/
def cellIn (ch : List (List Value)) (i j : Nat) : Value :=
  (ch.getD i []).getD j .vNone

/-- Value of field `j` of record `i` of the cleaned batch. -/
def cellOut (schema : List (String × Dtype)) (ch : List (List Value)) (i j : Nat) : Value :=
  (((cleanChunkRecords schema ch).getD i []).getD j ("", .vNone)).2

/-- Cell `i` of column `j` of a frame. -/
def frameCell (cols : List Col) (j i : Nat) : Value :=
  (cols.getD j dummyCol).values.getD i .vNone

/-- Recogniser for timestamp values. -/
def isTimeV : Value → Bool
  | .vTime _ _ _ _ => true
  | _ => false

/-- Recogniser for string values. -/
def isStrV : Value → Bool
  | .vStr _ => true
  | _ => false

/-! ## The run model: extract_tables over the sqlite source -/

/-- The fixed list of tables `extract_tables` processes. -/
def tables : List String :=
  ["tb_emr_surgery_info", "tb_encounter", "tb_person_mtr", "tb_mig_implant_description"]

/-- The relational source together with the failure behaviour of the queries
issued against it: `find` looks a table up (a missing table makes both queries
raise), `countOk t = false` means the `SELECT COUNT(*)` query for `t` raises,
`readOk t = false` means the chunked `SELECT *` read for `t` raises, and
`countVal t` is the number the count query reports (the code only logs it). -/
structure Source where
  find : String → Option Table
  countOk : String → Bool
  readOk : String → Bool
  countVal : String → Nat

/-- Whether both queries for table `t` succeed against `src`. -/
def tableOk (src : Source) (t : String) : Bool :=
  (src.find t).isSome && src.countOk t && src.readOk t

/-- Whether an `Except` is a success. -/
def exOk {α : Type} : Except String α → Bool
  | .ok _ => true
  | .error _ => false

/-- The per-table body of the loop in `extract_tables`: the count query first
(it raises when the table is missing or `countOk` is false), then the chunked
read-and-clean loop.  On success it returns the accumulated records together
with the log lines the body emitted (the count value appears only there). -/
def processTable (src : Source) (t : String) : Except String (List Record × List String) :=
  match src.find t with
  | none => .error ("no such table: " ++ t)
  | some tbl =>
    if src.countOk t then
      if src.readOk t then
        .ok (extractTableRecords chunk_size tbl,
             ["Processing table: " ++ t,
              "Total rows in " ++ t ++ ": " ++ toString (src.countVal t)])
      else .error ("read failed: " ++ t)
    else .error ("count query failed: " ++ t)

/-- The loop of `extract_tables` over a list of table names: the first raise
propagates; otherwise the per-table datasets accumulate in list order. -/
def extractTablesFrom (src : Source) :
    List String → Except String (List (String × List Record) × List String)
  | [] => .ok ([], [])
  | t :: ts =>
    match processTable src t with
    | .error e => .error e
    | .ok (recs, lg) =>
      match extractTablesFrom src ts with
      | .error e => .error e
      | .ok (rest, lgs) => .ok ((t, recs) :: rest, lg ++ lgs)

/-- Outcome of one `SQLPreprocessor.extract_tables` call: the returned dataset
or the propagated exception, the success-path log, and whether the
`conn.close()` line (which sits after the loop) was reached. -/
structure RunResult where
  result : Except String (List (String × List Record))
  log : List String
  closed : Bool

/-- `SQLPreprocessor.extract_tables`: process the fixed table list; an
exception from any table propagates before `conn.close()` runs. -/
def extract_tables (src : Source) : RunResult :=
  match extractTablesFrom src tables with
  | .error e => ⟨.error e, [], false⟩
  | .ok (d, lg) => ⟨.ok d, lg, true⟩

/-! ## The export model -/

/-- Path of a table's output file (`os.path.join(output_dir, table + '_preprocessed.json')`). -/
def tableFile (outDir t : String) : String := outDir ++ "/" ++ t ++ "_preprocessed.json"

/-- Path of the completion marker file. -/
def markerFile (outDir : String) : String := outDir ++ "/preprocessing_complete.txt"

/-- Whether `json.dump` can serialise one value: strings, numbers (including
`NaN` and the infinities, since `allow_nan` defaults to true), booleans and
`None` are fine; a `pd.Timestamp`, a `NaT` or an exotic object raises
`TypeError`. -/
def jsonSafe : Value → Bool
  | .vTime _ _ _ _ => false
  | .vNaT => false
  | .vOther _ => false
  | _ => true

def recordSafe (r : Record) : Bool := r.all fun p => jsonSafe p.2

def tableSafe (d : List Record) : Bool := d.all recordSafe

/-- Per-table loop of `export_preprocessed_data` with a write oracle `w`
(whether the filesystem accepts a given path): walk the tables in order,
writing each file; `json.dump` raising (an unserialisable value) or a write
failure aborts the loop.  Returns the successfully written files, in order,
and whether the loop completed. -/
def exportTablesLoop (w : String → Bool) (outDir : String) :
    List (String × List Record) → List String × Bool
  | [] => ([], true)
  | (t, d) :: rest =>
    if tableSafe d && w (tableFile outDir t) then
      let r := exportTablesLoop w outDir rest
      (tableFile outDir t :: r.1, r.2)
    else ([], false)

/-- Outcome of `export_preprocessed_data`: the table files written, whether
the marker file was written, and whether the function returned normally. -/
structure ExportResult where
  files : List String
  marker : Bool
  ok : Bool

/-- `SQLPreprocessor.export_preprocessed_data`: write every table file; only
after the loop completes is the marker file written (its own write may also
fail, in which case the exception propagates with no marker on disk). -/
def export_preprocessed_data (w : String → Bool) (outDir : String)
    (pd : List (String × List Record)) : ExportResult :=
  let r := exportTablesLoop w outDir pd
  if r.2 then
    if w (markerFile outDir) then ⟨r.1, true, true⟩
    else ⟨r.1, false, false⟩
  else ⟨r.1, false, false⟩

/-! ## Safety condition for export (used by the amended C7) -/

/-- Column `j` of batch `ch` only produces JSON-serialisable output: a
datetime column must hold timestamps only (a `NaT` would poison it and let
raw timestamps through); any other column must hold only missing or
JSON-serialisable values. -/
def colSafeForExport (schema : List (String × Dtype)) (ch : List (List Value)) (j : Nat) : Bool :=
  if (schema.getD j ("", .object)).2 = .datetime64 then
    ch.all fun r => isTimeV (r.getD j .vNone)
  else
    ch.all fun r => isMissing (r.getD j .vNone) || jsonSafe (r.getD j .vNone)

/-! ## Concrete fixtures for counterexamples and witnesses -/

/-- A one-column float batch holding an infinity and a NaN. -/
def floatColCE : List Col := [⟨"x", .float64, [.vInf, .vNaN]⟩]

/-- Schema with a single datetime column. -/
def schemaDT : List (String × Dtype) := [("d", .datetime64)]

/-- A batch for `schemaDT` whose datetime column contains a NaT next to a
real timestamp. -/
def batchDT : List (List Value) := [[.vTime 2023 5 14 37800], [.vNaT]]

/-- The table formed from `schemaDT` and `batchDT`. -/
def tblDT : Table := ⟨schemaDT, batchDT⟩

/-- Schema with a datetime column and an object column. -/
def schemaC7 : List (String × Dtype) := [("d", .datetime64), ("o", .object)]

/-- A batch for `schemaC7`: the datetime column contains a NaT (poisoning it)
and the object column contains an exotic value. -/
def batchC7 : List (List Value) := [[.vNaT, .vOther "obj"], [.vTime 2024 1 2 0, .vInt 7]]

/-- A source on which every query succeeds; every table exists and is empty. -/
def srcAllOk : Source :=
  ⟨fun _ => some ⟨[], []⟩, fun _ => true, fun _ => true, fun _ => 0⟩

/-- A source on which only the row-count query of the first table fails. -/
def srcCountFail : Source :=
  ⟨fun _ => some ⟨[], []⟩, fun t => !(t == "tb_emr_surgery_info"), fun _ => true, fun _ => 0⟩

/-- A source on which the chunked read of one table fails. -/
def srcReadFail : Source :=
  ⟨fun _ => some ⟨[], []⟩, fun _ => true, fun t => !(t == "tb_person_mtr"), fun _ => 0⟩

/-- A small processed dataset used as an export witness. -/
def pdW : List (String × List Record) :=
  [("tb_encounter", [[("a", .vInt 1), ("b", .vStr "x")]]), ("tb_person_mtr", [])]

/-- A batch for `schemaC7` with only exportable values. -/
def batchW7 : List (List Value) := [[.vTime 2024 3 4 5, .vStr "a"]]

/-- A single exotic-dtype column with an exotic value and a missing value. -/
def exoticCol : List Col := [⟨"e", .other, [.vOther "blob", .vNaT]⟩]

/-- A single object column with plain values. -/
def objCol : List Col := [⟨"s", .object, [.vStr "hello", .vBool true]⟩]

/-- A table whose datetime column is free of missing values (the float column
is not). -/
def tblOkDT : Table :=
  ⟨[("d", .datetime64), ("x", .float64)],
   [[.vTime 2023 5 14 0, .vFloat 15], [.vTime 2024 1 2 3600, .vNaN]]⟩

/-! ## List helper lemmas -/

theorem getD_map_lt {α β : Type} (f : α → β) (l : List α) (i : Nat) (d : α) (d' : β)
    (h : i < l.length) : (l.map f).getD i d' = f (l.getD i d) := by
  induction l generalizing i with
  | nil => exact absurd h (by simp)
  | cons x xs ih =>
    cases i with
    | zero => rfl
    | succ k => exact ih k (by simpa using h)

theorem map_eq_range_map {α β : Type} (f : α → β) (d : α) (l : List α) :
    l.map f = (List.range l.length).map fun i => f (l.getD i d) := by
  induction l with
  | nil => rfl
  | cons x xs ih =>
    simp only [List.map_cons, List.length_cons, List.range_succ_eq_map, List.map_map]
    refine congrArg₂ _ rfl ?_
    rw [ih]
    rfl

theorem any_eq_false_getD {α : Type} (p : α → Bool) (l : List α) (i : Nat) (d : α)
    (h : i < l.length) (ha : l.any p = false) : p (l.getD i d) = false := by
  induction l generalizing i with
  | nil => exact absurd h (by simp)
  | cons x xs ih =>
    simp only [List.any_cons, Bool.or_eq_false_iff] at ha
    cases i with
    | zero => exact ha.1
    | succ k => exact ih k (by simpa using h) ha.2

/-! ## The chunking function reassembles the row list -/

theorem toChunksFuel_flatten (fuel n : Nat) (xs : List (List Value))
    (h : xs.length ≤ fuel) : (toChunksFuel fuel n xs).flatten = xs := by
  induction fuel generalizing xs with
  | zero =>
    have : xs = [] := List.length_eq_zero.mp (Nat.le_zero.mp h)
    subst this
    rfl
  | succ fuel ih =>
    cases xs with
    | nil => rfl
    | cons x xs' =>
      have hd : ((x :: xs').drop (n + 1)).length ≤ fuel := by
        simp only [List.length_drop, List.length_cons]
        simp only [List.length_cons] at h
        omega
      simp only [toChunksFuel, List.flatten_cons, ih _ hd, List.take_append_drop]

theorem toChunksSucc_flatten (n : Nat) (xs : List (List Value)) :
    (toChunksSucc n xs).flatten = xs :=
  toChunksFuel_flatten xs.length n xs (Nat.le_refl _)

theorem toChunks_flatten (sz : Nat) (xs : List (List Value)) :
    (toChunks sz xs).flatten = xs :=
  toChunksSucc_flatten (sz - 1) xs

theorem mem_of_mem_toChunks {sz : Nat} {xs : List (List Value)}
    {ch : List (List Value)} {r : List Value}
    (hch : ch ∈ toChunks sz xs) (hr : r ∈ ch) : r ∈ xs := by
  have h := List.mem_flatten.mpr ⟨ch, hch, hr⟩
  rwa [toChunks_flatten] at h

/-! ## Column-wise cleaning equals row-wise cleaning -/

theorem cleanCol_name (c : Col) : (cleanCol c).name = c.name := by
  unfold cleanCol
  by_cases h : c.dtype = .datetime64
  · by_cases hm : c.values.any isMissing = true <;> simp [h, hm]
  · simp [h]

theorem cleanCol_length (c : Col) : (cleanCol c).values.length = c.values.length := by
  unfold cleanCol
  by_cases h : c.dtype = .datetime64
  · by_cases hm : c.values.any isMissing = true <;> simp [h, hm]
  · simp [h]

theorem any_map_eq {α β : Type} (f : α → β) (p : β → Bool) (l : List α) :
    (l.map f).any p = l.any fun x => p (f x) := by
  induction l with
  | nil => rfl
  | cons x xs ih => simp [List.any_cons, ih]

/-- Cell `i` of a cleaned column equals the row-wise `cleanCell`, with the
poisoned flag given by the column's own missing-value content. -/
theorem cleanCol_getD (c : Col) (i : Nat) (hi : i < c.values.length) :
    (cleanCol c).values.getD i .vNone
      = cleanCell c.dtype (c.values.any isMissing) (c.values.getD i .vNone) := by
  obtain ⟨nm, dt, vs⟩ := c
  by_cases hdt : dt = Dtype.datetime64
  · subst hdt
    by_cases hm : vs.any isMissing = true
    · have hc : cleanCol ⟨nm, Dtype.datetime64, vs⟩
          = ⟨nm, .object, vs.map (replaceVal .datetime64)⟩ := by
        simp [cleanCol, hm]
      rw [hc]
      show (vs.map (replaceVal .datetime64)).getD i .vNone = _
      rw [getD_map_lt (replaceVal .datetime64) vs i Value.vNone Value.vNone hi]
      simp [replaceVal, cleanCell, hm]
    · have hmf : vs.any isMissing = false := by simpa using hm
      have hc : cleanCol ⟨nm, Dtype.datetime64, vs⟩
          = ⟨nm, .object, (vs.map (replaceVal .datetime64)).map strfV⟩ := by
        simp [cleanCol, hmf]
      rw [hc]
      have hnmiss : isMissing (vs.getD i Value.vNone) = false :=
        any_eq_false_getD isMissing vs i Value.vNone hi hmf
      show ((vs.map (replaceVal .datetime64)).map strfV).getD i .vNone = _
      rw [getD_map_lt strfV (vs.map (replaceVal .datetime64)) i Value.vNone Value.vNone
            (by simpa using hi),
          getD_map_lt (replaceVal .datetime64) vs i Value.vNone Value.vNone hi]
      have hnmiss' : isMissing (vs[i]?.getD Value.vNone) = false := by
        rw [← List.getD_eq_getElem?_getD]
        exact hnmiss
      simp [replaceVal, cleanCell, hnmiss', hmf]
  · have hc : cleanCol ⟨nm, dt, vs⟩ = ⟨nm, dt, vs.map (replaceVal dt)⟩ := by
      simp [cleanCol, hdt]
    rw [hc]
    show (vs.map (replaceVal dt)).getD i .vNone = _
    rw [getD_map_lt (replaceVal dt) vs i Value.vNone Value.vNone hi]
    by_cases hmv : isMissing (vs.getD i Value.vNone) = true
    · have hmv' : isMissing (vs[i]?.getD Value.vNone) = true := by
        rw [← List.getD_eq_getElem?_getD]
        exact hmv
      simp [replaceVal, cleanCell, hmv']
    · have hmv' : isMissing (vs[i]?.getD Value.vNone) = false := by
        rw [← List.getD_eq_getElem?_getD]
        simpa using hmv
      simp [replaceVal, cleanCell, hmv', hdt]

/-- Cell `i` of a cleaned chunk-column equals the row-wise `cleanCell` with
the poisoned flag of that column. -/
theorem cleanCol_cell (ch : List (List Value)) (j : Nat) (nm : String) (dt : Dtype)
    (i : Nat) (hi : i < ch.length) :
    (cleanCol ⟨nm, dt, ch.map fun r => r.getD j .vNone⟩).values.getD i .vNone
      = cleanCell dt (colMissing ch j) (cellIn ch i j) := by
  have h := cleanCol_getD ⟨nm, dt, ch.map fun r => r.getD j .vNone⟩ i (by simpa using hi)
  rw [h]
  show cleanCell dt ((ch.map fun r => r.getD j Value.vNone).any isMissing) _ = _
  rw [any_map_eq (fun r => r.getD j Value.vNone) isMissing ch,
      getD_map_lt (fun r => r.getD j Value.vNone) ch i [] Value.vNone hi]
  rfl

/-- Record `i` of a cleaned chunk frame (columns from index `j` on) equals the
row-wise cleaning of source row `i`. -/
theorem recordAt_clean_mkColsFrom (ch : List (List Value)) (s : List (String × Dtype))
    (j i : Nat) (hi : i < ch.length) :
    ((clean_dataframe (mkColsFrom ch j s)).map fun c => (c.name, c.values.getD i .vNone))
      = cleanRowP (colMissing ch) j s (ch.getD i []) := by
  induction s generalizing j with
  | nil => rfl
  | cons hd tl ih =>
    obtain ⟨nm, dt⟩ := hd
    simp only [mkColsFrom, clean_dataframe, List.map_cons, cleanRowP]
    refine congrArg₂ _ ?_ (ih (j + 1))
    refine congrArg₂ _ (cleanCol_name _) ?_
    have := cleanCol_cell ch j nm dt i hi
    simpa [cellIn] using this

/-- The per-chunk loop body acts row by row: cleaning the chunk's frame and
taking records equals cleaning each row with the chunk's poisoned flags. -/
theorem cleanChunkRecords_eq_map (schema : List (String × Dtype)) (ch : List (List Value)) :
    cleanChunkRecords schema ch = ch.map (cleanRowIn schema ch) := by
  unfold cleanChunkRecords dfRecords
  rw [map_eq_range_map (cleanRowIn schema ch) [] ch]
  refine List.map_congr_left ?_
  intro i hmem
  have hi : i < ch.length := List.mem_range.mp hmem
  exact recordAt_clean_mkColsFrom ch schema 0 i hi

/-! ## Shape and access lemmas for cleaned rows and records -/

theorem cleanRowP_length (p : Nat → Bool) (j : Nat) (s : List (String × Dtype))
    (row : List Value) : (cleanRowP p j s row).length = s.length := by
  induction s generalizing j with
  | nil => rfl
  | cons hd tl ih =>
    obtain ⟨nm, dt⟩ := hd
    simp [cleanRowP, ih]

theorem cleanRowP_keys (p : Nat → Bool) (j : Nat) (s : List (String × Dtype))
    (row : List Value) : (cleanRowP p j s row).map Prod.fst = s.map Prod.fst := by
  induction s generalizing j with
  | nil => rfl
  | cons hd tl ih =>
    obtain ⟨nm, dt⟩ := hd
    simp [cleanRowP, ih]

theorem cleanRowP_getD (p : Nat → Bool) (j k : Nat) (s : List (String × Dtype))
    (row : List Value) (hk : k < s.length) :
    (cleanRowP p j s row).getD k ("", .vNone)
      = ((s.getD k ("", .object)).1,
         cleanCell (s.getD k ("", .object)).2 (p (j + k)) (row.getD (j + k) .vNone)) := by
  induction s generalizing j k with
  | nil => exact absurd hk (by simp)
  | cons hd tl ih =>
    obtain ⟨nm, dt⟩ := hd
    cases k with
    | zero => simp [cleanRowP]
    | succ k' =>
      simp only [cleanRowP, List.getD_cons_succ]
      rw [ih (j + 1) k' (by simpa using hk)]
      have harith : j + 1 + k' = j + (k' + 1) := by omega
      rw [harith]

/-- Value of field `j` of output record `i`, in terms of the source cell and
the chunk's poisoned flag for that column. -/
theorem cellOut_eq (schema : List (String × Dtype)) (ch : List (List Value)) (i j : Nat)
    (hi : i < ch.length) (hj : j < schema.length) :
    cellOut schema ch i j
      = cleanCell (schema.getD j ("", .object)).2 (colMissing ch j) (cellIn ch i j) := by
  unfold cellOut
  rw [cleanChunkRecords_eq_map,
      getD_map_lt (cleanRowIn schema ch) ch i [] [] hi]
  unfold cleanRowIn
  rw [cleanRowP_getD (colMissing ch) 0 j schema (ch.getD i []) hj]
  simp only [Nat.zero_add]
  rfl

theorem cleanChunkRecords_length (schema : List (String × Dtype)) (ch : List (List Value)) :
    (cleanChunkRecords schema ch).length = ch.length := by
  simp [cleanChunkRecords, dfRecords]

theorem flatten_map_length_eq (F : List (List Value) → List Record)
    (hF : ∀ ch, (F ch).length = ch.length) (L : List (List (List Value))) :
    ((L.map F).flatten).length = L.flatten.length := by
  induction L with
  | nil => rfl
  | cons x xs ih => simp [List.flatten_cons, hF, ih]

theorem flatten_map_map {α β : Type} (g : α → β) (L : List (List α)) :
    (L.map (List.map g)).flatten = L.flatten.map g := by
  induction L with
  | nil => rfl
  | cons x xs ih => simp only [List.map_cons, List.flatten_cons, List.map_append, ih]

theorem list_ext_getD {α : Type} (d : α) (l₁ l₂ : List α) (hlen : l₁.length = l₂.length)
    (h : ∀ k, k < l₁.length → l₁.getD k d = l₂.getD k d) : l₁ = l₂ := by
  induction l₁ generalizing l₂ with
  | nil =>
    cases l₂ with
    | nil => rfl
    | cons y ys => exact absurd hlen (by simp)
  | cons x xs ih =>
    cases l₂ with
    | nil => exact absurd hlen (by simp)
    | cons y ys =>
      have h0 : x = y := h 0 (by simp)
      refine congrArg₂ _ h0 (ih ys (by simpa using hlen) fun k hk => ?_)
      exact h (k + 1) (by simpa using hk)

/-! ## Batch-size invariance machinery (for tables without temporal missing values) -/

theorem cleanCell_poison_irrelevant (dt : Dtype) (b b' : Bool) (v : Value)
    (hdt : dt ≠ .datetime64) : cleanCell dt b v = cleanCell dt b' v := by
  simp [cleanCell, hdt]

/-- If no datetime column of the whole table has a missing value, cleaning a
row inside any chunk of the table agrees with the chunk-independent cleaning. -/
theorem cleanRowIn_eq_pure (schema : List (String × Dtype)) (rows ch : List (List Value))
    (row : List Value) (hsub : ∀ r ∈ ch, r ∈ rows)
    (h : ∀ j, j < schema.length → (schema.getD j ("", .object)).2 = .datetime64 →
         ∀ r ∈ rows, isMissing (r.getD j .vNone) = false) :
    cleanRowIn schema ch row = cleanRowPure schema row := by
  unfold cleanRowIn cleanRowPure
  apply list_ext_getD ("", Value.vNone)
  · rw [cleanRowP_length, cleanRowP_length]
  · intro k hk
    rw [cleanRowP_length] at hk
    rw [cleanRowP_getD (colMissing ch) 0 k schema row hk,
        cleanRowP_getD (fun _ => false) 0 k schema row hk]
    simp only [Nat.zero_add]
    by_cases hdt : (schema.getD k ("", Dtype.object)).2 = .datetime64
    · have hcm : colMissing ch k = false := by
        unfold colMissing
        rw [List.any_eq_false]
        intro r hr
        have hmr := h k hk hdt r (hsub r hr)
        simp only [List.getD_eq_getElem?_getD] at hmr ⊢
        simp [hmr]
      rw [hcm]
    · exact congrArg _ (cleanCell_poison_irrelevant _ _ _ _ hdt)

/-! ## Facts about cleaned cells -/

theorem isMissing_zeroFor (dt : Dtype) : isMissing (zeroFor dt) = false := by
  unfold zeroFor
  split <;> rfl

theorem isMissing_strfV (v : Value) (h : isMissing v = false) : isMissing (strfV v) = false := by
  cases v <;> simp_all [strfV, isMissing]

theorem isMissing_cleanCell (dt : Dtype) (b : Bool) (v : Value) :
    isMissing (cleanCell dt b v) = false := by
  unfold cleanCell
  by_cases hm : isMissing v = true
  · simp [hm, isMissing_zeroFor]
  · have hm' : isMissing v = false := by simpa using hm
    by_cases hdt : dt = Dtype.datetime64 ∧ b = false
    · simp [hm', hdt, isMissing_strfV v hm']
    · simp [hm', hdt]

theorem cleanCell_missing (dt : Dtype) (b : Bool) (v : Value) (h : isMissing v = true) :
    cleanCell dt b v = zeroFor dt := by
  simp [cleanCell, h]

theorem cleanCell_inf (dt : Dtype) (b : Bool) : cleanCell dt b .vInf = .vInf := by
  by_cases hdt : dt = Dtype.datetime64 ∧ b = false <;>
    simp [cleanCell, hdt, strfV, isMissing]

theorem cleanCell_keeps_nonmissing (dt : Dtype) (b : Bool) (v : Value)
    (hdt : dt ≠ .datetime64) (hm : isMissing v = false) : cleanCell dt b v = v := by
  simp [cleanCell, hm, hdt]

theorem cleanCol_dtype_nondt (c : Col) (hdt : c.dtype ≠ .datetime64) :
    (cleanCol c).dtype = c.dtype := by
  simp [cleanCol, hdt]

theorem clean_dataframe_getD (cols : List Col) (j : Nat) (hj : j < cols.length) :
    (clean_dataframe cols).getD j dummyCol = cleanCol (cols.getD j dummyCol) :=
  getD_map_lt cleanCol cols j dummyCol dummyCol hj

/-- Cell-level description of `clean_dataframe` on an arbitrary frame. -/
theorem frameCell_clean (cols : List Col) (j i : Nat) (hj : j < cols.length)
    (hi : i < (cols.getD j dummyCol).values.length) :
    frameCell (clean_dataframe cols) j i
      = cleanCell (cols.getD j dummyCol).dtype
          ((cols.getD j dummyCol).values.any isMissing) (frameCell cols j i) := by
  unfold frameCell
  rw [clean_dataframe_getD cols j hj]
  exact cleanCol_getD (cols.getD j dummyCol) i hi

theorem mem_getD_of_mem {α : Type} (d : α) {l : List α} {a : α} (h : a ∈ l) :
    ∃ k, k < l.length ∧ l.getD k d = a := by
  induction l with
  | nil => cases h
  | cons x xs ih =>
    rcases List.mem_cons.mp h with h0 | hmem
    · exact ⟨0, by simp, h0.symm⟩
    · obtain ⟨k, hk, he⟩ := ih hmem
      exact ⟨k + 1, by simpa using hk, he⟩

theorem jsonSafe_zeroFor (dt : Dtype) : jsonSafe (zeroFor dt) = true := by
  unfold zeroFor
  split <;> rfl

theorem isMissing_of_isTimeV (v : Value) (h : isTimeV v = true) : isMissing v = false := by
  cases v <;> simp_all [isTimeV, isMissing]

/-! ## Export loop lemmas -/

theorem exportTablesLoop_flag (w : String → Bool) (outDir : String)
    (pd : List (String × List Record)) :
    (exportTablesLoop w outDir pd).2
      = pd.all fun p => tableSafe p.2 && w (tableFile outDir p.1) := by
  induction pd with
  | nil => rfl
  | cons hd rest ih =>
    obtain ⟨t, d⟩ := hd
    unfold exportTablesLoop
    by_cases h : (tableSafe d && w (tableFile outDir t)) = true
    · simp [h, ih]
    · have h' : (tableSafe d && w (tableFile outDir t)) = false := by simpa using h
      simp [h', List.all_cons]

theorem exportTablesLoop_files (w : String → Bool) (outDir : String)
    (pd : List (String × List Record)) (h : (exportTablesLoop w outDir pd).2 = true) :
    (exportTablesLoop w outDir pd).1 = pd.map fun p => tableFile outDir p.1 := by
  induction pd with
  | nil => rfl
  | cons hd rest ih =>
    obtain ⟨t, d⟩ := hd
    by_cases hh : (tableSafe d && w (tableFile outDir t)) = true
    · simp only [exportTablesLoop, hh, if_pos rfl] at h ⊢
      simp [ih h]
    · simp [exportTablesLoop, hh] at h

/-! ## Run loop lemmas -/

theorem processTable_isOk (src : Source) (t : String) :
    exOk (processTable src t) = tableOk src t := by
  unfold processTable tableOk
  cases src.find t with
  | none => simp [exOk]
  | some tbl =>
    cases hc : src.countOk t with
    | false => simp [hc, exOk]
    | true =>
      cases hr : src.readOk t with
      | false => simp [hc, hr, exOk]
      | true => simp [hc, hr, exOk]

theorem extractTablesFrom_isOk (src : Source) (ts : List String) :
    exOk (extractTablesFrom src ts) = ts.all (tableOk src) := by
  induction ts with
  | nil => rfl
  | cons t ts ih =>
    have hpt := processTable_isOk src t
    unfold extractTablesFrom
    cases hres : processTable src t with
    | error e =>
      rw [hres] at hpt
      rw [List.all_cons, ← hpt]
      simp [exOk]
    | ok p =>
      rw [hres] at hpt
      obtain ⟨recs, lg⟩ := p
      rw [List.all_cons, ← hpt]
      cases hrest : extractTablesFrom src ts with
      | error e =>
        rw [hrest] at ih
        rw [← ih]
        simp [exOk]
      | ok q =>
        obtain ⟨rest, lgs⟩ := q
        rw [hrest] at ih
        rw [← ih]
        simp [exOk]

theorem extract_tables_result_eq (src : Source) :
    (extract_tables src).result = Except.map Prod.fst (extractTablesFrom src tables) := by
  unfold extract_tables
  cases extractTablesFrom src tables with
  | error e => rfl
  | ok p => rfl

theorem extract_tables_closed_eq (src : Source) :
    (extract_tables src).closed = exOk (extractTablesFrom src tables) := by
  unfold extract_tables
  cases extractTablesFrom src tables with
  | error e => rfl
  | ok p => rfl

theorem processTable_countVal_indep (src : Source) (f g : String → Nat) (t : String) :
    Except.map Prod.fst (processTable { src with countVal := f } t)
      = Except.map Prod.fst (processTable { src with countVal := g } t) := by
  unfold processTable
  cases src.find t with
  | none => rfl
  | some tbl =>
    by_cases hc : src.countOk t = true
    · by_cases hr : src.readOk t = true
      · simp [hc, hr, Except.map]
      · simp [hc, hr]
    · simp [hc]

theorem extractTablesFrom_countVal_indep (src : Source) (f g : String → Nat)
    (ts : List String) :
    Except.map Prod.fst (extractTablesFrom { src with countVal := f } ts)
      = Except.map Prod.fst (extractTablesFrom { src with countVal := g } ts) := by
  induction ts with
  | nil => rfl
  | cons t ts ih =>
    have hpt := processTable_countVal_indep src f g t
    unfold extractTablesFrom
    cases hf : processTable { src with countVal := f } t with
    | error e =>
      cases hg : processTable { src with countVal := g } t with
      | error e' =>
        rw [hf, hg] at hpt
        simp [Except.map] at hpt
        simp [Except.map, hpt]
      | ok p =>
        rw [hf, hg] at hpt
        simp [Except.map] at hpt
    | ok p =>
      cases hg : processTable { src with countVal := g } t with
      | error e' =>
        rw [hf, hg] at hpt
        simp [Except.map] at hpt
      | ok q =>
        rw [hf, hg] at hpt
        simp [Except.map] at hpt
        obtain ⟨recs, lg⟩ := p
        obtain ⟨recs', lg'⟩ := q
        simp at hpt
        cases hff : extractTablesFrom { src with countVal := f } ts with
        | error e =>
          cases hgg : extractTablesFrom { src with countVal := g } ts with
          | error e' =>
            rw [hff, hgg] at ih
            simp [Except.map] at ih
            simp [Except.map, ih]
          | ok r =>
            rw [hff, hgg] at ih
            simp [Except.map] at ih
        | ok r =>
          cases hgg : extractTablesFrom { src with countVal := g } ts with
          | error e' =>
            rw [hff, hgg] at ih
            simp [Except.map] at ih
          | ok r' =>
            rw [hff, hgg] at ih
            simp [Except.map] at ih
            obtain ⟨rest, lgs⟩ := r
            obtain ⟨rest', lgs'⟩ := r'
            simp at ih
            simp [Except.map, hpt, ih]

theorem exOk_map {α β : Type} (fn : α → β) (e : Except String α) :
    exOk (Except.map fn e) = exOk e := by
  cases e <;> rfl

theorem export_marker_eq (w : String → Bool) (outDir : String)
    (pd : List (String × List Record)) :
    (export_preprocessed_data w outDir pd).marker
      = ((exportTablesLoop w outDir pd).2 && w (markerFile outDir)) := by
  unfold export_preprocessed_data
  by_cases h2 : (exportTablesLoop w outDir pd).2 = true
  · by_cases hm : w (markerFile outDir) = true <;> simp [h2, hm]
  · have h2' : (exportTablesLoop w outDir pd).2 = false := by simpa using h2
    simp [h2']

theorem export_files_eq (w : String → Bool) (outDir : String)
    (pd : List (String × List Record)) :
    (export_preprocessed_data w outDir pd).files = (exportTablesLoop w outDir pd).1 := by
  unfold export_preprocessed_data
  by_cases h2 : (exportTablesLoop w outDir pd).2 = true
  · by_cases hm : w (markerFile outDir) = true <;> simp [h2, hm]
  · have h2' : (exportTablesLoop w outDir pd).2 = false := by simpa using h2
    simp [h2']

theorem jsonSafe_cleanCell_time (v : Value) (h : isTimeV v = true) :
    jsonSafe (cleanCell .datetime64 false v) = true := by
  cases v <;> simp_all [isTimeV, cleanCell, isMissing, strfV, jsonSafe]

/-! ## Claim theorems -/

/-- C2 counterexample: the Cleaner does not replace infinities — an infinite
float cell survives cleaning unchanged — and a NaN in a float column becomes
the float `0.0`, not the integer `0`. -/
theorem clean_keeps_infinity_and_float_zero :
    clean_dataframe floatColCE = [⟨"x", .float64, [.vInf, .vFloat 0]⟩]
    ∧ Value.vInf ≠ Value.vInt 0
    ∧ Value.vFloat 0 ≠ Value.vInt 0 := by
  decide

/-- C2 (amended): after cleaning, no cell is null, NaN or NaT; every missing
source cell is replaced by zero (float `0.0` in float columns, the integer
`0` elsewhere); infinite values are not missing and pass through unchanged. -/
theorem clean_no_missing_and_inf_passthrough (cols : List Col) (j i : Nat)
    (hj : j < cols.length) (hi : i < (cols.getD j dummyCol).values.length) :
    isMissing (frameCell (clean_dataframe cols) j i) = false
    ∧ (isMissing (frameCell cols j i) = true →
        frameCell (clean_dataframe cols) j i = zeroFor (cols.getD j dummyCol).dtype)
    ∧ (frameCell cols j i = .vInf → frameCell (clean_dataframe cols) j i = .vInf) := by
  have h := frameCell_clean cols j i hj hi
  refine ⟨?_, ?_, ?_⟩
  · rw [h]
    exact isMissing_cleanCell _ _ _
  · intro hm
    rw [h, cleanCell_missing _ _ _ hm]
  · intro hv
    rw [h, hv, cleanCell_inf]

/-- Witness for the amended C2 on a concrete float column. -/
theorem clean_no_missing_and_inf_passthrough_witness :
    isMissing (frameCell (clean_dataframe floatColCE) 0 1) = false
    ∧ frameCell (clean_dataframe floatColCE) 0 0 = .vInf :=
  ⟨(clean_no_missing_and_inf_passthrough floatColCE 0 1 (by decide) (by decide)).1,
   (clean_no_missing_and_inf_passthrough floatColCE 0 0 (by decide) (by decide)).2.2 (by decide)⟩

/-- C3 counterexample: in a datetime column that also contains a NaT, the
null-replacement step retypes the column, so a non-null timestamp in the same
column is NOT output as a `YYYY-MM-DD` string — it stays a raw timestamp
(while the NaT itself becomes `0`). -/
theorem timestamp_not_stringified_in_poisoned_column :
    cellOut schemaDT batchDT 0 0 = .vTime 2023 5 14 37800
    ∧ isStrV (cellOut schemaDT batchDT 0 0) = false
    ∧ isMissing (cellIn batchDT 0 0) = false
    ∧ (schemaDT.getD 0 ("", .object)).2 = .datetime64
    ∧ cellOut schemaDT batchDT 1 0 = .vInt 0 := by
  decide

/-- C3 (amended): a non-null temporal value is output as the `YYYY-MM-DD`
string of its calendar date (time of day discarded) whenever its column has
no missing value in the batch — cells of other columns in the same row may
well have been null-replaced; a non-temporal column never changes a
non-missing cell's representation. -/
theorem temporal_stringified_when_column_clean (schema : List (String × Dtype))
    (ch : List (List Value)) (i j : Nat) (hi : i < ch.length) (hj : j < schema.length) :
    ((schema.getD j ("", .object)).2 = .datetime64 → colMissing ch j = false →
        cellOut schema ch i j = strfV (cellIn ch i j)
        ∧ ∀ y m d t, cellIn ch i j = .vTime y m d t →
            cellOut schema ch i j = .vStr (fmtDate y m d))
    ∧ ((schema.getD j ("", .object)).2 ≠ .datetime64 →
        isMissing (cellIn ch i j) = false → cellOut schema ch i j = cellIn ch i j) := by
  have hco := cellOut_eq schema ch i j hi hj
  constructor
  · intro hdt hcm
    have hcm' : (ch.any fun r => isMissing (r.getD j .vNone)) = false := hcm
    have hnm : isMissing (cellIn ch i j) = false :=
      any_eq_false_getD (fun r => isMissing (r.getD j .vNone)) ch i [] hi hcm'
    have hstr : cellOut schema ch i j = strfV (cellIn ch i j) := by
      rw [hco, hdt]
      simp [cleanCell, hnm, hcm]
    refine ⟨hstr, ?_⟩
    intro y m d t hv
    rw [hstr, hv]
    rfl
  · intro hdt hnm
    rw [hco]
    exact cleanCell_keeps_nonmissing _ _ _ hdt hnm

/-- Witness for the amended C3: a clean datetime column is stringified. -/
theorem temporal_stringified_when_column_clean_witness :
    cellOut schemaDT [[.vTime 2023 5 14 37800]] 0 0 = .vStr "2023-05-14" := by
  have h := (temporal_stringified_when_column_clean schemaDT [[.vTime 2023 5 14 37800]]
    0 0 (by decide) (by decide)).1 (by decide) (by decide)
  exact (h.2 2023 5 14 37800 (by decide)).trans (by decide)

/-- C9: a cell that is not missing, in a column whose dtype is not temporal,
is left unchanged by the Cleaner in both type and value, and the column's
dtype is preserved. -/
theorem nonmissing_nontemporal_cell_unchanged (cols : List Col) (j i : Nat)
    (hj : j < cols.length) (hi : i < (cols.getD j dummyCol).values.length)
    (hdt : (cols.getD j dummyCol).dtype ≠ .datetime64)
    (hm : isMissing (frameCell cols j i) = false) :
    frameCell (clean_dataframe cols) j i = frameCell cols j i
    ∧ ((clean_dataframe cols).getD j dummyCol).dtype = (cols.getD j dummyCol).dtype := by
  constructor
  · rw [frameCell_clean cols j i hj hi]
    exact cleanCell_keeps_nonmissing _ _ _ hdt hm
  · rw [clean_dataframe_getD cols j hj]
    exact cleanCol_dtype_nondt _ hdt

/-- Witness for C9 on a concrete object column. -/
theorem nonmissing_nontemporal_cell_unchanged_witness :
    frameCell (clean_dataframe objCol) 0 1 = frameCell objCol 0 1 :=
  (nonmissing_nontemporal_cell_unchanged objCol 0 1 (by decide) (by decide)
    (by decide) (by decide)).1

/-- C8: the Cleaner is total — it always returns a frame of the same column
count, with every column's cell count preserved — and a column of an
unrecognised (exotic) dtype keeps its dtype and passes its non-missing cells
through unchanged instead of failing. -/
theorem cleaner_total_shape_and_exotic_passthrough (cols : List Col) :
    (clean_dataframe cols).length = cols.length
    ∧ ∀ j, j < cols.length →
        (((clean_dataframe cols).getD j dummyCol).values.length
            = (cols.getD j dummyCol).values.length
         ∧ ((cols.getD j dummyCol).dtype = .other →
             ((clean_dataframe cols).getD j dummyCol).dtype = .other
             ∧ ∀ i, i < (cols.getD j dummyCol).values.length →
                 isMissing (frameCell cols j i) = false →
                 frameCell (clean_dataframe cols) j i = frameCell cols j i)) := by
  refine ⟨by simp [clean_dataframe], ?_⟩
  intro j hj
  have hg := clean_dataframe_getD cols j hj
  refine ⟨by rw [hg]; exact cleanCol_length _, ?_⟩
  intro hother
  have hne : (cols.getD j dummyCol).dtype ≠ .datetime64 := by
    rw [hother]
    decide
  refine ⟨by rw [hg, cleanCol_dtype_nondt _ hne, hother], ?_⟩
  intro i hi hm
  rw [frameCell_clean cols j i hj hi]
  exact cleanCell_keeps_nonmissing _ _ _ hne hm

/-- Witness for C8 on a concrete exotic column. -/
theorem cleaner_total_shape_and_exotic_passthrough_witness :
    frameCell (clean_dataframe exoticCol) 0 0 = frameCell exoticCol 0 0 := by
  have h := (cleaner_total_shape_and_exotic_passthrough exoticCol).2 0 (by decide)
  exact (h.2 (by decide)).2 0 (by decide) (by decide)

/-- C7 counterexample: cleaned output is not always JSON-serialisable — a raw
timestamp survives in a NaT-poisoned datetime column, and an exotic object in
an object column passes through; both make `json.dump` raise. -/
theorem unsafe_values_reach_serialization :
    jsonSafe (cellOut schemaC7 batchC7 1 0) = false
    ∧ jsonSafe (cellOut schemaC7 batchC7 0 1) = false
    ∧ isMissing (cellIn batchC7 1 0) = false := by
  decide

/-- C7 (amended): the cleaned batch always keeps the input's row count and
column set; its values are all JSON-serialisable provided every datetime
column holds only timestamps (no NaT) and every other column holds only
missing or JSON-serialisable values. -/
theorem record_shape_and_conditional_json_safety (schema : List (String × Dtype))
    (ch : List (List Value)) :
    (cleanChunkRecords schema ch).length = ch.length
    ∧ (∀ r ∈ cleanChunkRecords schema ch, r.map Prod.fst = schema.map Prod.fst)
    ∧ ((∀ j, j < schema.length → colSafeForExport schema ch j = true) →
        ∀ r ∈ cleanChunkRecords schema ch, ∀ p ∈ r, jsonSafe p.2 = true) := by
  refine ⟨cleanChunkRecords_length schema ch, ?_, ?_⟩
  · intro r hr
    rw [cleanChunkRecords_eq_map] at hr
    obtain ⟨row, hrow, rfl⟩ := List.mem_map.mp hr
    exact cleanRowP_keys _ 0 schema row
  · intro hsafe r hr p hp
    rw [cleanChunkRecords_eq_map] at hr
    obtain ⟨row, hrow, rfl⟩ := List.mem_map.mp hr
    obtain ⟨k, hk, hpk⟩ := mem_getD_of_mem ("", Value.vNone) hp
    unfold cleanRowIn at hk hpk
    rw [cleanRowP_length] at hk
    rw [cleanRowP_getD (colMissing ch) 0 k schema row hk] at hpk
    simp only [Nat.zero_add] at hpk
    have hsk := hsafe k hk
    unfold colSafeForExport at hsk
    by_cases hdt : (schema.getD k ("", Dtype.object)).2 = .datetime64
    · rw [if_pos hdt] at hsk
      have hrowk : isTimeV (row.getD k .vNone) = true := List.all_eq_true.mp hsk row hrow
      have hcm : colMissing ch k = false := by
        unfold colMissing
        rw [List.any_eq_false]
        intro r' hr'
        have hmr := isMissing_of_isTimeV _ (List.all_eq_true.mp hsk r' hr')
        rw [List.getD_eq_getElem?_getD] at hmr
        simp [hmr]
      rw [← hpk]
      show jsonSafe (cleanCell (schema.getD k ("", Dtype.object)).2 (colMissing ch k)
        (row.getD k .vNone)) = true
      rw [hdt, hcm]
      exact jsonSafe_cleanCell_time _ hrowk
    · rw [if_neg hdt] at hsk
      have hror := List.all_eq_true.mp hsk row hrow
      rw [← hpk]
      show jsonSafe (cleanCell (schema.getD k ("", Dtype.object)).2 (colMissing ch k)
        (row.getD k .vNone)) = true
      by_cases hm : isMissing (row.getD k .vNone) = true
      · rw [cleanCell_missing _ _ _ hm]
        exact jsonSafe_zeroFor _
      · have hm' : isMissing (row.getD k .vNone) = false := by simpa using hm
        have hjs : jsonSafe (row.getD k .vNone) = true := by
          rw [hm'] at hror
          simpa using hror
        rw [cleanCell_keeps_nonmissing _ _ _ hdt hm']
        exact hjs

/-- Witness for the amended C7 on a concrete safe batch. -/
theorem record_shape_and_conditional_json_safety_witness :
    jsonSafe ((((cleanChunkRecords schemaC7 batchW7).getD 0 []).getD 0 ("", .vNone)).2)
      = true := by
  have h := (record_shape_and_conditional_json_safety schemaC7 batchW7).2.2 (by decide)
  exact h ((cleanChunkRecords schemaC7 batchW7).getD 0 []) (by decide)
    (((cleanChunkRecords schemaC7 batchW7).getD 0 []).getD 0 ("", .vNone)) (by decide)

/-- C4: for any batch size, the extraction loop emits the cleaned records of
the chunks in read order — record `i` of a chunk comes from source row `i` of
that chunk — and the total output record count equals the table's row count. -/
theorem extract_keeps_row_order_and_count (sz : Nat) (tbl : Table) :
    extractTableRecords sz tbl
        = ((toChunks sz tbl.rows).map fun ch => ch.map (cleanRowIn tbl.schema ch)).flatten
    ∧ (extractTableRecords sz tbl).length = tbl.rows.length := by
  constructor
  · unfold extractTableRecords
    refine congrArg List.flatten ?_
    exact List.map_congr_left fun ch _ => cleanChunkRecords_eq_map tbl.schema ch
  · unfold extractTableRecords
    rw [flatten_map_length_eq (cleanChunkRecords tbl.schema)
          (cleanChunkRecords_length tbl.schema),
        toChunks_flatten]

/-- C5 counterexample: the same table extracted with batch size 1 and with
batch size 100000 yields different record lists (a NaT in the datetime column
poisons only the batch that contains it). -/
theorem chunk_size_changes_extracted_records :
    extractTableRecords 1 tblDT ≠ extractTableRecords 100000 tblDT := by
  decide

/-- C5 (amended): extraction is batch-size invariant for every table whose
temporal columns contain no missing value; with such a table any two batch
sizes produce identical record lists. -/
theorem batch_size_invariant_without_temporal_missing (tbl : Table)
    (h : ∀ j, j < tbl.schema.length → (tbl.schema.getD j ("", .object)).2 = .datetime64 →
         ∀ r ∈ tbl.rows, isMissing (r.getD j .vNone) = false)
    (n m : Nat) : extractTableRecords n tbl = extractTableRecords m tbl := by
  have key : ∀ sz : Nat, extractTableRecords sz tbl
      = tbl.rows.map (cleanRowPure tbl.schema) := by
    intro sz
    unfold extractTableRecords
    have hmap : (toChunks sz tbl.rows).map (cleanChunkRecords tbl.schema)
        = (toChunks sz tbl.rows).map (List.map (cleanRowPure tbl.schema)) := by
      refine List.map_congr_left fun ch hch => ?_
      rw [cleanChunkRecords_eq_map]
      refine List.map_congr_left fun row _ => ?_
      exact cleanRowIn_eq_pure tbl.schema tbl.rows ch row
        (fun r hr => mem_of_mem_toChunks hch hr) h
    rw [hmap, flatten_map_map, toChunks_flatten]
  rw [key n, key m]

/-- Witness for the amended C5 on a concrete table. -/
theorem batch_size_invariant_without_temporal_missing_witness :
    extractTableRecords 1 tblOkDT = extractTableRecords 2 tblOkDT :=
  batch_size_invariant_without_temporal_missing tblOkDT (by decide) 1 2

/-- C1: provided the filesystem accepts the marker path, the marker file is
written exactly when every table's dataset serialises and its file write
succeeds; and when the marker is written, the files written are precisely all
table files, in iteration order, before the marker. -/
theorem marker_written_iff_all_tables_exported (w : String → Bool) (outDir : String)
    (pd : List (String × List Record)) (hm : w (markerFile outDir) = true) :
    ((export_preprocessed_data w outDir pd).marker = true
      ↔ ∀ p ∈ pd, tableSafe p.2 = true ∧ w (tableFile outDir p.1) = true)
    ∧ ((export_preprocessed_data w outDir pd).marker = true →
        (export_preprocessed_data w outDir pd).files
          = pd.map fun p => tableFile outDir p.1) := by
  have hmark := export_marker_eq w outDir pd
  constructor
  · rw [hmark, hm, Bool.and_true, exportTablesLoop_flag]
    constructor
    · intro hall p hp
      have hv := List.all_eq_true.mp hall p hp
      simpa using hv
    · intro h
      apply List.all_eq_true.mpr
      intro p hp
      simpa using h p hp
  · intro hmk
    rw [export_files_eq]
    apply exportTablesLoop_files
    rw [hmark, hm, Bool.and_true] at hmk
    exact hmk

/-- Witness for C1 on a concrete dataset and an always-accepting filesystem. -/
theorem marker_written_iff_all_tables_exported_witness :
    (export_preprocessed_data (fun _ => true) "intermediate" pdW).marker = true :=
  (marker_written_iff_all_tables_exported (fun _ => true) "intermediate" pdW rfl).1.mpr
    (by decide)

/-- C6 counterexample: a source on which every table exists and every chunked
read would succeed, but the row-count query of the first table raises — the
whole extraction aborts, so a count failure is NOT survived. -/
theorem count_query_failure_aborts_run :
    exOk (extract_tables srcCountFail).result = false
    ∧ srcCountFail.countOk "tb_emr_surgery_info" = false
    ∧ (srcCountFail.find "tb_emr_surgery_info").isSome = true
    ∧ srcCountFail.readOk "tb_emr_surgery_info" = true := by
  decide

/-- C6 (amended): the row-count query's value never influences the extracted
dataset (it is only logged), but the query is not best-effort: if it raises
for any configured table, the whole extraction aborts with that exception. -/
theorem count_query_result_unused_but_failure_fatal :
    (∀ (src : Source) (f g : String → Nat),
        (extract_tables { src with countVal := f }).result
          = (extract_tables { src with countVal := g }).result)
    ∧ (∀ (src : Source) (t : String), t ∈ tables → src.countOk t = false →
        exOk (extract_tables src).result = false) := by
  constructor
  · intro src f g
    rw [extract_tables_result_eq, extract_tables_result_eq]
    exact extractTablesFrom_countVal_indep src f g tables
  · intro src t ht hc
    rw [extract_tables_result_eq, exOk_map, extractTablesFrom_isOk]
    cases hall : tables.all (tableOk src) with
    | false => rfl
    | true =>
      exfalso
      have h := List.all_eq_true.mp hall t ht
      simp [tableOk, hc] at h

/-- Witness for the amended C6: concrete count values do not change the
result, and a concrete count failure aborts. -/
theorem count_query_result_unused_but_failure_fatal_witness :
    (extract_tables { srcAllOk with countVal := fun _ => 5 }).result
      = (extract_tables { srcAllOk with countVal := fun _ => 7 }).result
    ∧ exOk (extract_tables srcCountFail).result = false :=
  ⟨count_query_result_unused_but_failure_fatal.1 srcAllOk (fun _ => 5) (fun _ => 7),
   count_query_result_unused_but_failure_fatal.2 srcCountFail "tb_emr_surgery_info"
     (by decide) (by decide)⟩

/-- C10: `conn.close()` is reached exactly when every configured table's
queries succeed, and the call returns normally exactly on that path — any
exception propagates with the connection left open. -/
theorem connection_closed_iff_all_tables_ok (src : Source) :
    ((extract_tables src).closed = true ↔ ∀ t ∈ tables, tableOk src t = true)
    ∧ exOk (extract_tables src).result = (extract_tables src).closed := by
  constructor
  · rw [extract_tables_closed_eq, extractTablesFrom_isOk]
    exact List.all_eq_true
  · rw [extract_tables_result_eq, exOk_map, extract_tables_closed_eq]

/-- Witness for C10 on a source where all queries succeed and one where a
read fails. -/
theorem connection_closed_iff_all_tables_ok_witness :
    (extract_tables srcAllOk).closed = true
    ∧ (extract_tables srcReadFail).closed = false :=
  ⟨((connection_closed_iff_all_tables_ok srcAllOk).1).mpr (by decide),
   by
    cases hcl : (extract_tables srcReadFail).closed with
    | false => rfl
    | true =>
      exfalso
      have h := ((connection_closed_iff_all_tables_ok srcReadFail).1).mp hcl
        "tb_person_mtr" (by decide)
      simp [srcReadFail, tableOk] at h⟩

end Preproc
